import Mathlib

/-!
Verification of the normalization / deduplication pipeline of
`src/backend/fetch_events.py` (penn-events-calendar).

The Python source is shallowly embedded: pure helper functions
(`clean_date_format`, `clean_starttime`, `clean_endtime`,
`find_startend_time`, `read_json`, `save_json`) become Lean functions on
`String` / `List Char`; the `__main__` merge pipeline (pandas DataFrame
operations at lines 2233-2300) becomes explicit list processing; code that
can raise a Python exception returns `Except`.

External library calls (`dateutil.parser.parse`, `json.loads`, pandas
primitives, sklearn estimators) are not repository code; each is modelled
by a Lean function restricted to the behavior this development actually
relies on, documented at its definition.
-/

set_option maxRecDepth 4000

/-! ## Character / string primitives (Python semantics) -/

/-- Python `str.strip()` / `\s` whitespace set (ASCII fragment). -/
def pySpace (c : Char) : Bool :=
  c = ' ' || c = '\t' || c = '\n' || c = '\x0b' || c = '\x0c' || c = '\r'

def stripChars (cs : List Char) : List Char :=
  ((cs.dropWhile pySpace).reverse.dropWhile pySpace).reverse

/-- Python `str.strip()` with no arguments. -/
def pyStrip (s : String) : String := String.mk (stripChars s.toList)

/-- Numeric value of a digit run, e.g. `natOfDigits ['1','2'] = 12`. -/
def natOfDigits (cs : List Char) : Nat :=
  cs.foldl (fun a c => a * 10 + (c.toNat - 48)) 0

/-- Zero-padded 2-digit rendering, as CPython `%d`/`%m`/`%I`/`%M`. -/
def pad2 (n : Nat) : String := if n < 10 then "0" ++ toString n else toString n

/-! ## Model of `dateutil.parser.parse` (external library)

`fetch_events.py` calls `dateutil.parser.parse` in `clean_date_format`
(lines 79, 92, 93) and `clean_endtime` (line 111), and the claims under
verification exercise it only on 12-hour / 24-hour clock-time strings and on
strings the real parser rejects (the empty string, alphabetic gibberish such
as `"xyzzy"` or `"TBD"`).  The model below parses exactly that clock-time
fragment — `H:MM` optionally followed by whitespace and `AM`/`PM`/`am`/`pm`
— and reports every other string as unparseable (`none`), standing for the
`ValueError` the real parser raises.  `dateutil` fills unspecified date
fields from the current day; the model uses a fixed run date, and no theorem
below depends on the date fields of a parsed clock time. -/

structure PyDateTime where
  year : Nat
  month : Nat
  day : Nat
  hour : Nat
  minute : Nat
deriving DecidableEq

def parseMeridiem (cs : List Char) : Option Bool :=
  match cs with
  | ['A', 'M'] => some false
  | ['a', 'm'] => some false
  | ['P', 'M'] => some true
  | ['p', 'm'] => some true
  | _ => none

def dateutilParse (s : String) : Option PyDateTime :=
  let cs := stripChars s.toList
  let p1 := cs.span Char.isDigit
  if p1.1.length = 0 ∨ 2 < p1.1.length then none else
  match p1.2 with
  | ':' :: r2 =>
    let p2 := r2.span Char.isDigit
    if p2.1.length ≠ 2 then none else
    let hh := natOfDigits p1.1
    let mm := natOfDigits p2.1
    if 60 ≤ mm then none else
    let rest := p2.2.dropWhile pySpace
    match parseMeridiem rest with
    | some pm =>
      if 1 ≤ hh ∧ hh ≤ 12 then
        some ⟨2026, 10, 12, (if pm then hh % 12 + 12 else hh % 12), mm⟩
      else none
    | none =>
      if rest = [] ∧ hh ≤ 23 then some ⟨2026, 10, 12, hh, mm⟩ else none
  | _ => none

/-- `datetime.strftime('%d-%m-%Y')` (line 79 and subsequent returns). -/
def fmtDate (t : PyDateTime) : String :=
  pad2 t.day ++ "-" ++ pad2 t.month ++ "-" ++ toString t.year

/-- `datetime.strftime("%I:%M %p")` (line 112): `%I` is the hour on the
12-hour clock **zero-padded to two digits**, `%p` is `AM`/`PM`. -/
def fmt12 (t : PyDateTime) : String :=
  pad2 ((t.hour + 11) % 12 + 1) ++ ":" ++ pad2 t.minute ++ " " ++
    (if t.hour < 12 then "AM" else "PM")

/-- `+ timedelta(hours=1)` (line 111); only the clock fields are ever
formatted afterwards, so the day rollover is dropped. -/
def addOneHour (t : PyDateTime) : PyDateTime := { t with hour := (t.hour + 1) % 24 }

/-! ## The event record

Every adapter produces dicts of free-text fields; `pd.DataFrame(events).fillna('')`
(line 2256) makes every field default to the empty string, and the merge adds
`date_dt` and `event_index` (absent = pandas `NaN`, modelled as `none`). -/

structure Event where
  date : String := ""
  starttime : String := ""
  endtime : String := ""
  title : String := ""
  description : String := ""
  location : String := ""
  url : String := ""
  owner : String := ""
  date_dt : String := ""
  event_index : Option Nat := none
deriving DecidableEq

/-- The six-column `subset` of `drop_duplicates` (lines 2265, 2274). -/
abbrev DKey := String × String × String × String × String × String

def dedupKey (e : Event) : DKey :=
  (e.starttime, e.owner, e.location, e.title, e.description, e.url)

/-! ## `drop_duplicates(subset=..., keep='first')` (lines 2264-2265, 2273-2274) -/

/-- Row scan of `drop_duplicates(keep='first')`: a row whose key was already
seen is dropped, otherwise it is kept and its key recorded. -/
def dedupAux (seen : List DKey) : List Event → List Event
  | [] => []
  | e :: rest =>
    if dedupKey e ∈ seen then dedupAux seen rest
    else e :: dedupAux (dedupKey e :: seen) rest

def dedupByKey (l : List Event) : List Event := dedupAux [] l

/-- `events_former_df['event_index'].max()` over the loaded corpus (line 2275);
rows read back from the corpus file always carry an index. -/
def maxIdx : List Event → Nat
  | [] => 0
  | e :: rest => max ((e.event_index).getD 0) (maxIdx rest)

/-- `events_df.loc[pd.isnull(events_df.event_index), 'event_index'] =
np.arange(event_idx_begin, event_idx_end)` (lines 2277-2278): rows lacking an
index receive consecutive integers in row order; indexed rows are untouched. -/
def assignIdx : Nat → List Event → List Event
  | _, [] => []
  | n, e :: rest =>
    match e.event_index with
    | some _ => e :: assignIdx n rest
    | none => { e with event_index := some n } :: assignIdx (n + 1) rest

/-- The existing-corpus merge branch (lines 2268-2280): concatenate former
corpus then new candidates, drop duplicate keys keeping the first occurrence,
and give index-less survivors consecutive indices from `max + 1`. -/
def mergeCorpus (former batch : List Event) : List Event :=
  assignIdx (maxIdx former + 1) (dedupByKey (former ++ batch))

/-- The no-corpus-file branch (lines 2263-2267): dedup the batch alone and
number survivors `0, 1, 2, ...` (`np.arange(len(events_df))`). -/
def firstRun (batch : List Event) : List Event :=
  assignIdx 0 (dedupByKey batch)

/-! ## `str.split` / `str.replace` (Python semantics, fuel-structural) -/

/-- Python `s.split(sep)` for a one-character separator: splits at every
occurrence, preserving empty pieces (`''.split('-') == ['']`). -/
def splitChar (sep : Char) : List Char → List (List Char)
  | [] => [[]]
  | c :: rest =>
    let r := splitChar sep rest
    if c = sep then [] :: r
    else
      match r with
      | [] => [[c]]
      | h :: t => (c :: h) :: t

def replaceAux (pat repl : List Char) : Nat → List Char → List Char
  | 0, cs => cs
  | _, [] => []
  | fuel + 1, c :: rest =>
    if pat.isPrefixOf (c :: rest) then
      repl ++ replaceAux pat repl fuel ((c :: rest).drop pat.length)
    else c :: replaceAux pat repl fuel rest

/-- Python `s.replace(pat, repl)`: every non-overlapping occurrence, left to
right (`pat` is nonempty at every use site). -/
def pyReplace (s pat repl : String) : String :=
  String.mk (replaceAux pat.toList repl.toList (s.toList.length + 1) s.toList)

/-! ## The clock-time regex `(\d+\:\d+\s?(?:AM|PM|am|pm|A.M.|P.M.|a.m.|p.m.))`
(lines 86 and 123).

The alternation is ordered; in `A.M.` etc. the dots are regex wildcards
(any character except newline).  The greedy `\d+` runs need no backtracking
because no alternative continuation starts with a digit, and `\s?` backtracks
to the empty match when no meridiem follows the whitespace. -/

def matchMer (cs : List Char) : Option (List Char × List Char) :=
  match cs with
  | 'A' :: 'M' :: rest => some (['A', 'M'], rest)
  | 'P' :: 'M' :: rest => some (['P', 'M'], rest)
  | 'a' :: 'm' :: rest => some (['a', 'm'], rest)
  | 'p' :: 'm' :: rest => some (['p', 'm'], rest)
  | c0 :: c1 :: c2 :: c3 :: rest =>
    if (c1 ≠ '\n' ∧ c3 ≠ '\n') ∧
        ((c0 = 'A' ∧ c2 = 'M') ∨ (c0 = 'P' ∧ c2 = 'M') ∨
         (c0 = 'a' ∧ c2 = 'm') ∨ (c0 = 'p' ∧ c2 = 'm')) then
      some ([c0, c1, c2, c3], rest)
    else none
  | _ => none

def matchClockAt (cs : List Char) : Option (List Char × List Char) :=
  let s1 := cs.span Char.isDigit
  if s1.1.isEmpty then none else
  match s1.2 with
  | ':' :: r2 =>
    let s2 := r2.span Char.isDigit
    if s2.1.isEmpty then none else
    (match s2.2 with
     | w :: r3 =>
       if pySpace w then
         match matchMer r3 with
         | some (m, rest) => some (s1.1 ++ ':' :: s2.1 ++ w :: m, rest)
         | none =>
           match matchMer (w :: r3) with
           | some (m, rest) => some (s1.1 ++ ':' :: s2.1 ++ m, rest)
           | none => none
       else
         match matchMer (w :: r3) with
         | some (m, rest) => some (s1.1 ++ ':' :: s2.1 ++ m, rest)
         | none => none
     | [] => none)
  | _ => none

/-- `re.findall` for the clock pattern: scan left to right, on a match emit it
and resume after it, otherwise advance one character. -/
def findTimesAux : Nat → List Char → List String
  | 0, _ => []
  | _, [] => []
  | fuel + 1, c :: rest =>
    match matchClockAt (c :: rest) with
    | some (m, rest') => String.mk m :: findTimesAux fuel rest'
    | none => findTimesAux fuel rest

def findClockTimes (s : String) : List String :=
  findTimesAux (s.toList.length + 1) s.toList

/-- `re.sub(clock_pattern, '', d)` (line 86). -/
def removeTimesAux : Nat → List Char → List Char
  | 0, cs => cs
  | _, [] => []
  | fuel + 1, c :: rest =>
    match matchClockAt (c :: rest) with
    | some (_, rest') => removeTimesAux fuel rest'
    | none => c :: removeTimesAux fuel rest

def removeClockTimes (s : String) : String :=
  String.mk (removeTimesAux (s.toList.length + 1) s.toList)

/-! ## The cleanup pass of `clean_date_format` (lines 81-87) -/

def cleanupDate (d : String) : String :=
  let d := pyReplace d "Date TBD" ""
  let d := pyReplace d "EDT" ""
  let d := pyReplace d "Special time:" ""
  let d := pyReplace d "Wu & Chen Auditorium" ""
  let d := pyReplace d "-" ""
  let d := pyReplace d "\n" " "
  let d := removeClockTimes d
  let d := pyReplace d "-" ""
  pyStrip d

/-! ## The eight source-specific date patterns `PATTERNS` (lines 59-68)

Each is an anchored regex with one capture group; `pat.sub(r"\1", d)` on a
matching `d` yields the captured text followed by whatever a final `.*` did
not consume (everything up to a newline; cleanup has already replaced all
newlines, so in the pipeline the suffix is empty).

Deterministic maximal-munch is faithful here: every greedy `[...]+` /
`[...]{1,2}` run is followed in its pattern by a literal that its character
class cannot match, so regex backtracking can never produce a different
match, and `{n}` counts are exact. -/

def RPat : Type := List Char → Option (List Char × List Char)

def pseq (a b : RPat) : RPat := fun cs =>
  match a cs with
  | none => none
  | some (x, r) =>
    match b r with
    | none => none
    | some (y, r') => some (x ++ y, r')

def plit (c : Char) : RPat := fun cs =>
  match cs with
  | x :: rest => if x = c then some ([x], rest) else none
  | [] => none

/-- Single character of a class. -/
def pclass1 (f : Char → Bool) : RPat := fun cs =>
  match cs with
  | x :: rest => if f x then some ([x], rest) else none
  | [] => none

/-- `[a-zA-Z]+` (maximal run; every use is followed by a non-letter literal). -/
def pletters1 : RPat := fun cs =>
  let s := cs.span Char.isAlpha
  if s.1.isEmpty then none else some s

/-- `[0-9]{1,2}` (maximal run of length 1 or 2; every use is followed by a
non-digit literal). -/
def pdigits12 : RPat := fun cs =>
  let s := cs.span Char.isDigit
  if s.1.length = 1 ∨ s.1.length = 2 then some s else none

/-- `[...]{n}`: exactly `n` characters of a class, follower unconstrained. -/
def pcount (f : Char → Bool) (n : Nat) : RPat := fun cs =>
  let pre := cs.take n
  if pre.length = n ∧ pre.all f then some (pre, cs.drop n) else none

/-- `c?`: optional literal (deterministic: the follower at every use site
cannot equal `c`, so backtracking is moot). -/
def popt (c : Char) : RPat := fun cs =>
  match cs with
  | x :: rest => if x = c then some ([x], rest) else some ([], cs)
  | [] => some ([], cs)

def peps : RPat := fun cs => some ([], cs)

/-- Run one `PATTERNS` entry: pre-group part, capture group, post-group part,
then trailing `.*`; on a match, `pat.sub(r"\1", d)` returns the capture
followed by the text the `.*` could not cross (from the first newline on). -/
def runPat (pre grp post : RPat) (s : String) : Option String :=
  match pre s.toList with
  | none => none
  | some (_, r1) =>
    match grp r1 with
    | none => none
    | some (g, r2) =>
      match post r2 with
      | none => none
      | some (_, r3) => some (String.mk (g ++ r3.dropWhile (fun c => c ≠ '\n')))

/-- `^[a-zA-Z]+, ([a-zA-Z]+ [0-9]{1,2}, [0-9]{4}).*` -/
def pat1 (s : String) : Option String :=
  runPat (pseq pletters1 (pseq (plit ',') (plit ' ')))
    (pseq pletters1 (pseq (plit ' ')
      (pseq pdigits12 (pseq (plit ',') (pseq (plit ' ') (pcount Char.isDigit 4))))))
    peps s

/-- `^([a-zA-Z]+ [0-9]{1,2}, [0-9]{4}) .*` -/
def pat2 (s : String) : Option String :=
  runPat peps
    (pseq pletters1 (pseq (plit ' ')
      (pseq pdigits12 (pseq (plit ',') (pseq (plit ' ') (pcount Char.isDigit 4))))))
    (plit ' ') s

/-- `^([a-zA-Z]+ [0-9]{1,2}) @.*` -/
def pat3 (s : String) : Option String :=
  runPat peps
    (pseq pletters1 (pseq (plit ' ') pdigits12))
    (pseq (plit ' ') (plit '@')) s

/-- `^([a-zA-Z]{3}\.? [0-9]{1,2}, [0-9]{4}) .*` -/
def pat4 (s : String) : Option String :=
  runPat peps
    (pseq (pcount Char.isAlpha 3) (pseq (popt '.') (pseq (plit ' ')
      (pseq pdigits12 (pseq (plit ',') (pseq (plit ' ') (pcount Char.isDigit 4)))))))
    (plit ' ') s

/-- `^([a-zA-Z]{3} [0-9]{1,2} [0-9]{4})[0-9]{1,2}:[0-9]{2}.*` -/
def pat5 (s : String) : Option String :=
  runPat peps
    (pseq (pcount Char.isAlpha 3) (pseq (plit ' ')
      (pseq pdigits12 (pseq (plit ' ') (pcount Char.isDigit 4)))))
    (pseq pdigits12 (pseq (plit ':') (pcount Char.isDigit 2))) s

/-- `^[a-zA-Z]{3}, ([0-9\/]{10}) .*` -/
def pat6 (s : String) : Option String :=
  runPat (pseq (pcount Char.isAlpha 3) (pseq (plit ',') (plit ' ')))
    (pcount (fun c => c.isDigit || c = '/') 10)
    (plit ' ') s

/-- `^[a-zA-Z]+, ([0-9]{1,2} [a-zA-Z]+ [0-9]{4})[— ]-?.*` (the class holds an
em dash U+2014 and a space; the ASCII hyphen was removed by cleanup but the
regex itself allows an optional one). -/
def pat7 (s : String) : Option String :=
  runPat (pseq pletters1 (pseq (plit ',') (plit ' ')))
    (pseq pdigits12 (pseq (plit ' ')
      (pseq pletters1 (pseq (plit ' ') (pcount Char.isDigit 4)))))
    (pseq (pclass1 (fun c => c = '—' || c = ' ')) (popt '-')) s

/-- `^([0-9]{1,2} [a-zA-Z]{3} [0-9]{4}) .*` -/
def pat8 (s : String) : Option String :=
  runPat peps
    (pseq pdigits12 (pseq (plit ' ')
      (pseq (pcount Char.isAlpha 3) (pseq (plit ' ') (pcount Char.isDigit 4)))))
    (plit ' ') s

def PATS_FNS : List (String → Option String) := [pat1, pat2, pat3, pat4, pat5, pat6, pat7, pat8]

/-- The `for pat in PATS: if pat.match(d): ...` loop (lines 89-92): the first
matching pattern wins and its substitution result is what gets re-parsed. -/
def tryPats : List (String → Option String) → String → Option String
  | [], _ => none
  | p :: ps, d =>
    match p d with
    | some g => some g
    | none => tryPats ps d

/-! ## `clean_date_format` (lines 72-95)

The first `dateutil` parse is wrapped in `try/except`, but the two `return
dateutil.parser.parse(...)` statements inside the `except` block are not:
an exception raised there propagates to the caller.  `Except Unit String`
makes that explicit: `.error ()` is an escaping Python exception. -/

def clean_date_format (d : String) : Except Unit String :=
  match dateutilParse d with
  | some t => .ok (fmtDate t)
  | none =>
    let c := cleanupDate d
    if c = "" then .ok ""
    else
      match tryPats PATS_FNS c with
      | some g =>
        match dateutilParse g with
        | some t => .ok (fmtDate t)
        | none => .error ()
      | none =>
        match dateutilParse c with
        | some t => .ok (fmtDate t)
        | none => .error ()

/-! ## `clean_starttime` / `clean_endtime` (lines 98-115) and
`find_startend_time` (lines 118-130) -/

def clean_starttime (r : Event) : String :=
  if '-' ∈ r.starttime.toList then
    String.mk (stripChars ((splitChar '-' r.starttime.toList).headD []))
  else r.starttime

def clean_endtime (r : Event) : String :=
  if '-' ∈ r.starttime.toList then
    String.mk (stripChars ((splitChar '-' r.starttime.toList).getLastD []))
  else
    match dateutilParse r.starttime with
    | some t => fmt12 (addOneHour t)
    | none => r.endtime

def find_startend_time (s : String) : String × String :=
  let ts := findClockTimes s
  if ts.length = 1 then (ts.headD "", "")
  else if ts.length = 2 then (ts.headD "", ts.getD 1 "")
  else ("", "")

/-! ## The `__main__` normalization and merge pipeline (lines 2256-2280) -/

/-- Rows 2259-2260 in row-wise form: `starttime` is overwritten by
`clean_starttime` first, and `clean_endtime` is then applied (to rows whose
`endtime` is empty) on the **already rewritten** row. -/
def normTimes (r : Event) : Event :=
  let r1 := { r with starttime := clean_starttime r }
  if r1.endtime = "" then { r1 with endtime := clean_endtime r1 } else r1

/-- One row through lines 2257-2260: `date_dt` from `clean_date_format`
(whose escaping exception aborts the whole run), then the time columns. -/
def normalizeFull (r : Event) : Except Unit Event :=
  match clean_date_format r.date with
  | .error e => .error e
  | .ok dd => .ok (normTimes { r with date_dt := dd })

/-- Lines 2251-2280 after the adapters ran.  An empty batch means
`pd.DataFrame([])` has no columns at all, so the very first column access
`events_df['date']` (line 2257) raises `KeyError`; likewise an existing but
empty corpus frame has no `event_index` column (line 2275). -/
def runMerge (corpus : Option (List Event)) (batch : List Event) :
    Except String (List Event) :=
  if batch.isEmpty then .error "KeyError: date"
  else
    match batch.mapM normalizeFull with
    | .error _ => .error "date parse error"
    | .ok normed =>
      match corpus with
      | none => .ok (firstRun normed)
      | some former =>
        if former.isEmpty then .error "KeyError: event_index"
        else .ok (mergeCorpus former normed)

/-! ## Corpus store: `read_json` (lines 133-143) and `save_json` (lines 146-151)

`read_json` iterates the file **line by line** and `json.loads`-parses each
line; `save_json` writes one pretty-printed JSON array spread over several
lines.  A file is `Option String` (`none` = the path does not exist).

`json.loads` / `json.dumps` are the Python standard library, modelled for the
flat records this program serializes: scalars (strings with basic escapes,
integers with an optional fraction, `null`, booleans, and the nonstandard
`NaN` that `json.dumps` emits for pandas missing values), arrays of scalars,
and one-level objects whose values are scalars or such arrays.  Deeper
nesting, which the program never writes, is reported as a parse failure, and
`\uXXXX` escapes are left out of the fragment. -/

inductive JValue where
  | jnull : JValue
  | jnan : JValue
  | jbool : Bool → JValue
  | jnum : Int → List Char → JValue
  | jstr : String → JValue
  | jarr : List JValue → JValue
  | jobj : List (String × JValue) → JValue

def skipWs (cs : List Char) : List Char :=
  cs.dropWhile (fun c => c = ' ' || c = '\t' || c = '\n' || c = '\r')

/-- Body of a JSON string after the opening quote. -/
def parseStrAux : Nat → List Char → Option (List Char × List Char)
  | 0, _ => none
  | _, [] => none
  | fuel + 1, c :: rest =>
    if c = '"' then some ([], rest)
    else if c = '\\' then
      match rest with
      | e :: rest' =>
        let dec : Option Char :=
          if e = '"' then some '"'
          else if e = '\\' then some '\\'
          else if e = '/' then some '/'
          else if e = 'n' then some '\n'
          else if e = 't' then some '\t'
          else if e = 'r' then some '\r'
          else if e = 'b' then some '\x08'
          else if e = 'f' then some '\x0c'
          else none
        match dec with
        | some d => (parseStrAux fuel rest').map (fun p => (d :: p.1, p.2))
        | none => none
      | [] => none
    else (parseStrAux fuel rest).map (fun p => (c :: p.1, p.2))

def parseScalar (cs : List Char) : Option (JValue × List Char) :=
  match cs with
  | '"' :: rest => (parseStrAux (rest.length + 1) rest).map (fun p => (.jstr (String.mk p.1), p.2))
  | 'n' :: 'u' :: 'l' :: 'l' :: rest => some (.jnull, rest)
  | 't' :: 'r' :: 'u' :: 'e' :: rest => some (.jbool true, rest)
  | 'f' :: 'a' :: 'l' :: 's' :: 'e' :: rest => some (.jbool false, rest)
  | 'N' :: 'a' :: 'N' :: rest => some (.jnan, rest)
  | '-' :: rest =>
    let s := rest.span Char.isDigit
    if s.1.isEmpty then none
    else
      (match s.2 with
       | '.' :: r2 =>
         let f := r2.span Char.isDigit
         if f.1.isEmpty then none
         else some (.jnum (-(natOfDigits s.1 : Int)) f.1, f.2)
       | r2 => some (.jnum (-(natOfDigits s.1 : Int)) [], r2))
  | c :: rest =>
    if c.isDigit then
      let s := (c :: rest).span Char.isDigit
      match s.2 with
      | '.' :: r2 =>
        let f := r2.span Char.isDigit
        if f.1.isEmpty then none
        else some (.jnum (natOfDigits s.1 : Int) f.1, f.2)
      | r2 => some (.jnum (natOfDigits s.1 : Int) [], r2)
    else none
  | [] => none

/-- Comma-separated scalars up to `]` (input after `[` and whitespace,
known nonempty-element case). -/
def parseArrItems : Nat → List Char → Option (List JValue × List Char)
  | 0, _ => none
  | fuel + 1, cs =>
    match parseScalar (skipWs cs) with
    | none => none
    | some (v, r) =>
      match skipWs r with
      | ',' :: r2 => (parseArrItems fuel r2).map (fun p => (v :: p.1, p.2))
      | ']' :: r2 => some ([v], r2)
      | _ => none

def parseArrFlat (fuel : Nat) (cs : List Char) : Option (JValue × List Char) :=
  match cs with
  | ']' :: rest => some (.jarr [], rest)
  | _ => (parseArrItems fuel cs).map (fun p => (.jarr p.1, p.2))

/-- An object member's value: a scalar or a flat array. -/
def parseMemVal (fuel : Nat) (cs : List Char) : Option (JValue × List Char) :=
  match skipWs cs with
  | '[' :: rest => parseArrFlat fuel (skipWs rest)
  | cs' => parseScalar cs'

def parseObjItems : Nat → List Char → Option (List (String × JValue) × List Char)
  | 0, _ => none
  | fuel + 1, cs =>
    match skipWs cs with
    | '"' :: rest =>
      match parseStrAux (rest.length + 1) rest with
      | none => none
      | some (kcs, r) =>
        match skipWs r with
        | ':' :: r2 =>
          match parseMemVal fuel r2 with
          | none => none
          | some (v, r3) =>
            match skipWs r3 with
            | ',' :: r4 => (parseObjItems fuel r4).map (fun p => ((String.mk kcs, v) :: p.1, p.2))
            | '}' :: r4 => some ([(String.mk kcs, v)], r4)
            | _ => none
        | _ => none
    | _ => none

def parseObjFlat (fuel : Nat) (cs : List Char) : Option (JValue × List Char) :=
  match cs with
  | '}' :: rest => some (.jobj [], rest)
  | _ => (parseObjItems fuel cs).map (fun p => (.jobj p.1, p.2))

def parseValFlat (fuel : Nat) (cs : List Char) : Option (JValue × List Char) :=
  match skipWs cs with
  | '[' :: rest => parseArrFlat fuel (skipWs rest)
  | '{' :: rest => parseObjFlat fuel (skipWs rest)
  | cs' => parseScalar cs'

/-- `json.loads`: one complete value, nothing but whitespace after it. -/
def jsonLoads (s : String) : Option JValue :=
  match parseValFlat (s.toList.length + 1) s.toList with
  | none => none
  | some (v, rest) => if skipWs rest = [] then some v else none

def hexDigit (n : Nat) : Char :=
  if n < 10 then Char.ofNat (48 + n) else Char.ofNat (87 + n)

def hex4 (n : Nat) : String :=
  String.mk [hexDigit (n / 4096 % 16), hexDigit (n / 256 % 16),
             hexDigit (n / 16 % 16), hexDigit (n % 16)]

/-- `json.dumps` string escaping with `ensure_ascii=True` (astral code points
really use surrogate pairs; the single `\uXXXX` here stands in for them and is
never load-bearing). -/
def escChar (c : Char) : String :=
  if c = '"' then "\\\""
  else if c = '\\' then "\\\\"
  else if c = '\n' then "\\n"
  else if c = '\t' then "\\t"
  else if c = '\r' then "\\r"
  else if c = '\x08' then "\\b"
  else if c = '\x0c' then "\\f"
  else if c.toNat < 32 ∨ 127 ≤ c.toNat then "\\u" ++ hex4 (c.toNat % 65536)
  else String.mk [c]

def jquote (s : String) : String :=
  "\"" ++ String.join (s.toList.map escChar) ++ "\""

/-- `json.dumps(record)` for one canonical event (pandas missing
`event_index` serializes as the nonstandard token `NaN`). -/
def dumpsEvent (e : Event) : String :=
  "\x7b" ++ jquote "date" ++ ": " ++ jquote e.date
      ++ ", " ++ jquote "starttime" ++ ": " ++ jquote e.starttime
      ++ ", " ++ jquote "endtime" ++ ": " ++ jquote e.endtime
      ++ ", " ++ jquote "title" ++ ": " ++ jquote e.title
      ++ ", " ++ jquote "description" ++ ": " ++ jquote e.description
      ++ ", " ++ jquote "location" ++ ": " ++ jquote e.location
      ++ ", " ++ jquote "url" ++ ": " ++ jquote e.url
      ++ ", " ++ jquote "owner" ++ ": " ++ jquote e.owner
      ++ ", " ++ jquote "date_dt" ++ ": " ++ jquote e.date_dt
      ++ ", " ++ jquote "event_index" ++ ": "
      ++ (match e.event_index with | some n => toString n | none => "NaN")
      ++ "\x7d"

/-- `save_json` (lines 146-151): the file content written,
`'[\n  ' + ',\n  '.join(json.dumps(i) for i in ls) + '\n]'`. -/
def save_json (ls : List Event) : String :=
  "[\n  " ++ String.intercalate ",\n  " (ls.map dumpsEvent) ++ "\n]"

/-- `for line in fp`: the file content cut at every newline (terminators
dropped; `json.loads` ignores surrounding whitespace anyway). -/
def linesAux : Nat → List Char → List String
  | 0, _ => []
  | _, [] => []
  | fuel + 1, c :: rest =>
    let line := (c :: rest).takeWhile (fun x => x ≠ '\n')
    match (c :: rest).dropWhile (fun x => x ≠ '\n') with
    | [] => [String.mk line]
    | _ :: rest2 => String.mk line :: linesAux fuel rest2

def linesOf (s : String) : List String := linesAux (s.toList.length + 1) s.toList

def parseLines : List String → Except Unit (List JValue)
  | [] => .ok []
  | l :: rest =>
    match jsonLoads l with
    | none => .error ()
    | some v =>
      match parseLines rest with
      | .error e => .error e
      | .ok vs => .ok (v :: vs)

/-- `read_json` (lines 133-143): `[]` when the path does not exist, otherwise
`[json.loads(line) for line in fp]`, where a failing line raises. -/
def read_json (file : Option String) : Except Unit (List JValue) :=
  match file with
  | none => .ok []
  | some content => parseLines (linesOf content)

/-! ## Topic vector stage (lines 2283-2300)

`preprocessF` abstracts `preprocess` (lines 38-56, built on the external
Porter stemmer); `tfidfF` abstracts `TfidfVectorizer.fit_transform` (`none` =
the fit raised, e.g. an empty vocabulary under `min_df=3`); `svdF` abstracts
`TruncatedSVD.fit_transform`.  The final length guard is the pandas
requirement that `events_df['event_vector'] = events_vector` (line 2299)
assigns one vector per row. -/

def eventText (e : Event) : String :=
  String.intercalate " " [e.title, e.description, e.location, e.starttime]

def vectorStage (preprocessF : String → String)
    (tfidfF : List String → Option (List (List Float)))
    (svdF : List (List Float) → List (List Float))
    (corpus : List Event) : Option (List (Option Nat × List Float)) :=
  let texts := (corpus.map eventText).map preprocessF
  match tfidfF texts with
  | none => none
  | some x =>
    let v := svdF x
    if v.length = corpus.length then
      some ((corpus.zip v).map (fun p => (p.1.event_index, p.2)))
    else none

/-- A stand-in tf-idf with the row-per-document shape of the sklearn call,
used to instantiate shape theorems at concrete inputs. -/
def tfidfModel (docs : List String) : Option (List (List Float)) :=
  some (docs.map (fun _ => [(0 : Float)]))

/-- A stand-in truncated SVD with the row-per-sample, `k`-component shape of
the sklearn call. -/
def svdModel (k : Nat) (x : List (List Float)) : List (List Float) :=
  x.map (fun _ => List.replicate k (0 : Float))

/-! ## Dedup lemmas -/

theorem mem_of_mem_dedupAux {e : Event} :
    ∀ (l : List Event) (seen : List DKey), e ∈ dedupAux seen l → e ∈ l := by
  intro l
  induction l with
  | nil => intro seen h; simp [dedupAux] at h
  | cons a rest ih =>
    intro seen h
    by_cases hk : dedupKey a ∈ seen
    · simp only [dedupAux, if_pos hk] at h
      exact List.mem_cons_of_mem _ (ih seen h)
    · simp only [dedupAux, if_neg hk, List.mem_cons] at h
      rcases h with h | h
      · exact h ▸ List.mem_cons_self _ _
      · exact List.mem_cons_of_mem _ (ih _ h)

theorem filter_dedupAux (k : DKey) :
    ∀ (l : List Event) (seen : List DKey),
      (dedupAux seen l).filter (fun e => decide (dedupKey e = k))
        = if k ∈ seen then [] else (l.find? (fun e => decide (dedupKey e = k))).toList := by
  intro l
  induction l with
  | nil => intro seen; by_cases h : k ∈ seen <;> simp [dedupAux, h]
  | cons e rest ih =>
    intro seen
    by_cases hk : dedupKey e ∈ seen
    · rw [dedupAux, if_pos hk, ih seen]
      by_cases hks : k ∈ seen
      · simp [hks]
      · have hne : ¬ dedupKey e = k := fun h => hks (h ▸ hk)
        simp [hks, List.find?, hne]
    · rw [dedupAux, if_neg hk, List.filter_cons, ih (dedupKey e :: seen)]
      by_cases hke : dedupKey e = k
      · subst hke
        simp [hk, List.find?]
      · have hke' : ¬ k = dedupKey e := fun h => hke h.symm
        simp [hke, hke', List.find?]

/-- Appending a record whose key already occurs in the list does not change
the dedup result. -/
theorem dedupAux_append_dup (r : Event) :
    ∀ (l : List Event) (seen : List DKey),
      ((∃ e ∈ l, dedupKey e = dedupKey r) ∨ dedupKey r ∈ seen) →
      dedupAux seen (l ++ [r]) = dedupAux seen l := by
  intro l
  induction l with
  | nil =>
    intro seen h
    rcases h with ⟨e, he, _⟩ | h
    · exact absurd he (List.not_mem_nil e)
    · simp [dedupAux, h]
  | cons a rest ih =>
    intro seen h
    by_cases hk : dedupKey a ∈ seen
    · simp only [List.cons_append, dedupAux, if_pos hk]
      apply ih
      rcases h with ⟨e, he, hke⟩ | h
      · rcases List.mem_cons.mp he with rfl | he'
        · exact Or.inr (hke ▸ hk)
        · exact Or.inl ⟨e, he', hke⟩
      · exact Or.inr h
    · simp only [List.cons_append, dedupAux, if_neg hk]
      have hside : (∃ e ∈ rest, dedupKey e = dedupKey r) ∨ dedupKey r ∈ dedupKey a :: seen := by
        rcases h with ⟨e, he, hke⟩ | h
        · rcases List.mem_cons.mp he with rfl | he'
          · exact Or.inr (by simp [hke])
          · exact Or.inl ⟨e, he', hke⟩
        · exact Or.inr (List.mem_cons_of_mem _ h)
      exact congrArg (a :: ·) (ih (dedupKey a :: seen) hside)

/-- C1: Merge deduplicates by the six-field tuple (starttime, owner, location,
title, description, url): in the concatenation existing-corpus-then-new-batch,
all records sharing a key collapse to exactly one surviving record, namely the
first occurrence in concatenated order (so a stored event wins over a same-key
candidate), and in particular a record fed twice in one batch survives once:
appending a duplicate of a record already in the batch leaves the dedup result
unchanged. -/
theorem merge_dedup_six_field_key (existing batch : List Event) (k : DKey) :
    ((dedupByKey (existing ++ batch)).filter (fun e => decide (dedupKey e = k))
        = ((existing ++ batch).find? (fun e => decide (dedupKey e = k))).toList)
    ∧ ∀ (r : Event) (rest : List Event),
        dedupByKey (existing ++ (r :: (rest ++ [r])))
          = dedupByKey (existing ++ (r :: rest)) := by
  constructor
  · simpa using filter_dedupAux k (existing ++ batch) []
  · intro r rest
    have h1 : existing ++ (r :: (rest ++ [r])) = (existing ++ (r :: rest)) ++ [r] := by
      simp
    rw [h1]
    exact dedupAux_append_dup r (existing ++ (r :: rest)) []
      (Or.inl ⟨r, by simp, rfl⟩)

/-! ## Index-assignment lemmas -/

theorem dedupAux_split :
    ∀ (former batch : List Event) (seen : List DKey),
      (former.map dedupKey).Nodup →
      (∀ e ∈ former, dedupKey e ∉ seen) →
      ∃ rest, dedupAux seen (former ++ batch) = former ++ rest ∧ ∀ e ∈ rest, e ∈ batch := by
  intro former
  induction former with
  | nil =>
    intro batch seen _ _
    exact ⟨dedupAux seen batch, rfl, fun e he => mem_of_mem_dedupAux batch seen he⟩
  | cons f fs ih =>
    intro batch seen hnd hseen
    have hf : dedupKey f ∉ seen := hseen f (List.mem_cons_self f fs)
    simp only [List.cons_append, dedupAux, if_neg hf]
    have hnd0 : dedupKey f ∉ fs.map dedupKey ∧ (fs.map dedupKey).Nodup := by
      rw [List.map_cons, List.nodup_cons] at hnd; exact hnd
    have hseen' : ∀ e ∈ fs, dedupKey e ∉ (dedupKey f :: seen) := by
      intro e he
      simp only [List.mem_cons]
      rintro (heq | hmem)
      · exact hnd0.1 (heq ▸ List.mem_map_of_mem dedupKey he)
      · exact hseen e (List.mem_cons_of_mem _ he) hmem
    obtain ⟨rest, hr, hmem⟩ := ih batch (dedupKey f :: seen) hnd0.2 hseen'
    exact ⟨rest, congrArg (f :: ·) hr, hmem⟩

theorem assignIdx_skip :
    ∀ (former rest : List Event) (n : Nat),
      (∀ e ∈ former, (e.event_index).isSome) →
      assignIdx n (former ++ rest) = former ++ assignIdx n rest := by
  intro former
  induction former with
  | nil => intro rest n _; rfl
  | cons f fs ih =>
    intro rest n h
    obtain ⟨v, hv⟩ := Option.isSome_iff_exists.mp (h f (List.mem_cons_self f fs))
    simp only [List.cons_append, assignIdx, hv]
    exact congrArg (f :: ·) (ih rest n (fun e he => h e (List.mem_cons_of_mem _ he)))

theorem assignIdx_len : ∀ (l : List Event) (n : Nat), (assignIdx n l).length = l.length := by
  intro l
  induction l with
  | nil => intro n; rfl
  | cons e rest ih =>
    intro n
    cases h : e.event_index <;> simp [assignIdx, h, ih]

theorem assignIdx_indices :
    ∀ (l : List Event) (n : Nat), (∀ e ∈ l, e.event_index = none) →
      (assignIdx n l).map (fun e => e.event_index) = (List.range' n l.length).map some := by
  intro l
  induction l with
  | nil => intro n _; rfl
  | cons e rest ih =>
    intro n h
    have he := h e (List.mem_cons_self e rest)
    simp only [assignIdx, he, List.map_cons, List.length_cons, List.range']
    rw [ih (n + 1) (fun x hx => h x (List.mem_cons_of_mem _ hx))]

theorem maxIdx_ge :
    ∀ (l : List Event), ∀ e ∈ l, ∀ j, e.event_index = some j → j ≤ maxIdx l := by
  intro l
  induction l with
  | nil => intro e he; exact absurd he (List.not_mem_nil e)
  | cons a rest ih =>
    intro e he j hj
    rcases List.mem_cons.mp he with rfl | he'
    · have : (e.event_index).getD 0 = j := by rw [hj]; rfl
      rw [maxIdx, this]
      exact le_max_left _ _
    · exact le_trans (ih e he' j hj) (le_max_right _ _)

theorem mem_range'_ge : ∀ (n s i : Nat), i ∈ List.range' s n → s ≤ i := by
  intro n
  induction n with
  | zero => intro s i h; simp [List.range'] at h
  | succ m ih =>
    intro s i h
    rw [List.range'] at h
    rcases List.mem_cons.mp h with rfl | h'
    · exact le_refl _
    · exact Nat.le_of_succ_le (ih (s + 1) i h')

/-- C2: identifier discipline of the merge: the merged corpus is the former
corpus unchanged (every pre-existing event keeps its `event_index`) followed
by the newly admitted events, whose indices are exactly the consecutive run
`max(existing) + 1, max(existing) + 2, ...` in order of appearance — hence
strictly greater than every pre-existing index — and on a first run (no
corpus file) the survivors are numbered from `0`. -/
theorem merge_index_discipline (former batch : List Event)
    (h1 : ∀ e ∈ former, (e.event_index).isSome)
    (h2 : (former.map dedupKey).Nodup)
    (h3 : ∀ e ∈ batch, e.event_index = none) :
    ∃ tail,
      mergeCorpus former batch = former ++ tail
      ∧ tail.map (fun e => e.event_index)
          = (List.range' (maxIdx former + 1) tail.length).map some
      ∧ (∀ e ∈ former, ∀ j, e.event_index = some j →
          ∀ i ∈ List.range' (maxIdx former + 1) tail.length, j < i)
      ∧ (firstRun batch).map (fun e => e.event_index)
          = (List.range' 0 (firstRun batch).length).map some := by
  obtain ⟨rest, hsplit, hrmem⟩ := dedupAux_split former batch [] h2 (by simp)
  have hrnone : ∀ e ∈ rest, e.event_index = none := fun e he => h3 e (hrmem e he)
  refine ⟨assignIdx (maxIdx former + 1) rest, ?_, ?_, ?_, ?_⟩
  · unfold mergeCorpus dedupByKey
    rw [hsplit, assignIdx_skip former rest _ h1]
  · rw [assignIdx_len, assignIdx_indices rest _ hrnone]
  · intro e he j hj i hi
    have hge := mem_range'_ge _ _ i hi
    have hle := maxIdx_ge former e he j hj
    omega
  · unfold firstRun dedupByKey
    have hn : ∀ e ∈ dedupAux [] batch, e.event_index = none :=
      fun e he => h3 e (mem_of_mem_dedupAux batch [] he)
    rw [assignIdx_len, assignIdx_indices _ _ hn]

theorem merge_index_discipline_witness :
    ∃ tail : List Event,
      mergeCorpus [({ title := "a", event_index := some 4 } : Event)] [({ title := "b" } : Event)]
        = [({ title := "a", event_index := some 4 } : Event)] ++ tail
      ∧ tail.map (fun e => e.event_index)
          = (List.range' (maxIdx [({ title := "a", event_index := some 4 } : Event)] + 1) tail.length).map some
      ∧ (∀ e ∈ [({ title := "a", event_index := some 4 } : Event)], ∀ j, e.event_index = some j →
          ∀ i ∈ List.range' (maxIdx [({ title := "a", event_index := some 4 } : Event)] + 1) tail.length, j < i)
      ∧ (firstRun [({ title := "b" } : Event)]).map (fun e => e.event_index)
          = (List.range' 0 (firstRun [({ title := "b" } : Event)]).length).map some :=
  merge_index_discipline [({ title := "a", event_index := some 4 } : Event)] [({ title := "b" } : Event)]
    (by decide) (by decide) (by decide)

/-- C3: the spec promises that a run with an empty new batch (for instance
when every adapter fails) completes with the corpus unchanged; in the code an
empty batch makes `pd.DataFrame([])` columnless, so `events_df['date']`
(line 2257) raises `KeyError` before the merge is even reached. -/
theorem empty_batch_run_raises (corpus : Option (List Event)) :
    runMerge corpus [] = .error "KeyError: date" := by
  simp [runMerge]

/-- C4 (corrected): the cleanup-to-empty failure is indeed swallowed — if the
first `dateutil` parse fails and the cleaned string is empty,
`clean_date_format` returns `""` — but when the cleaned string is nonempty
the re-parse happens **inside the `except` block**, so if it fails (whether a
source pattern matched or not) the exception escapes to the caller instead of
yielding an empty result. -/
theorem clean_date_empty_swallowed_nonempty_raises (d : String)
    (h0 : dateutilParse d = none) :
    (cleanupDate d = "" → clean_date_format d = .ok "")
    ∧ (cleanupDate d ≠ "" → tryPats PATS_FNS (cleanupDate d) = none →
        dateutilParse (cleanupDate d) = none → clean_date_format d = .error ())
    ∧ (∀ g, cleanupDate d ≠ "" → tryPats PATS_FNS (cleanupDate d) = some g →
        dateutilParse g = none → clean_date_format d = .error ()) := by
  refine ⟨fun h1 => ?_, fun h1 h2 h3 => ?_, fun g h1 h2 h3 => ?_⟩
  · simp [clean_date_format, h0, h1]
  · simp [clean_date_format, h0, h1, h2, h3]
  · simp [clean_date_format, h0, h1, h2, h3]

/-- C4 counterexample: `clean_date_format` does not return on every input —
on `"xyzzy"` (which the real `dateutil` also rejects) the fallback re-parse
raises and the exception propagates (`.error ()`), contradicting
"the failure is swallowed ... and never propagates to the caller". -/
theorem clean_date_format_can_raise : clean_date_format "xyzzy" = .error () := rfl

theorem clean_date_swallow_witness :
    clean_date_format "" = .ok "" ∧ clean_date_format "xyzzy" = .error () :=
  ⟨(clean_date_empty_swallowed_nonempty_raises "" rfl).1 rfl,
   (clean_date_empty_swallowed_nonempty_raises "xyzzy" rfl).2.1 (by decide) rfl rfl⟩

/-- C5 (corrected): with no `-` in `starttime`, an empty `endtime` and a
`starttime` that parses as a clock time, `clean_endtime` returns the start
plus one hour rendered by `strftime("%I:%M %p")` — whose `%I` hour is
**zero-padded to two digits**. -/
theorem endtime_plus_one_hour_padded (r : Event)
    (hnd : ¬ '-' ∈ r.starttime.toList) (hend : r.endtime = "")
    (t : PyDateTime) (hp : dateutilParse r.starttime = some t) :
    clean_endtime r
      = pad2 (((t.hour + 1) % 24 + 11) % 12 + 1) ++ ":" ++ pad2 t.minute ++ " " ++
        (if (t.hour + 1) % 24 < 12 then "AM" else "PM") := by
  unfold clean_endtime
  rw [if_neg hnd, hp]
  rfl

/-- C5 counterexample: for `starttime = "3:00 PM"`, `endtime = ""` the code
produces `"04:00 PM"`, not the `"4:00 PM"` the claim states. -/
theorem endtime_three_pm_not_4pm :
    clean_endtime { starttime := "3:00 PM", endtime := "" } = "04:00 PM"
    ∧ clean_endtime { starttime := "3:00 PM", endtime := "" } ≠ "4:00 PM" :=
  ⟨rfl, by decide⟩

theorem endtime_plus_one_hour_witness :
    clean_endtime { starttime := "3:00 PM", endtime := "" }
      = pad2 ((((15 : Nat) + 1) % 24 + 11) % 12 + 1) ++ ":" ++ pad2 0 ++ " " ++
        (if ((15 : Nat) + 1) % 24 < 12 then "AM" else "PM") :=
  endtime_plus_one_hour_padded { starttime := "3:00 PM", endtime := "" }
    (by decide) rfl ⟨2026, 10, 12, 15, 0⟩ rfl

/-- C6: the claim says a range-valued raw `starttime` with empty `endtime`
yields the trimmed after-dash text as endtime; but line 2259 overwrites
`starttime` with its before-dash part **before** line 2260 runs
`clean_endtime`, so the range branch never fires: for the raw record
`starttime = "10:00 AM - 11:30 AM"`, `endtime = ""` the pipeline produces
`endtime = "11:00 AM"` (start plus one hour), not `"11:30 AM"`. -/
theorem pipeline_drops_range_endtime :
    (normTimes { starttime := "10:00 AM - 11:30 AM", endtime := "" }).endtime = "11:00 AM"
    ∧ (normTimes { starttime := "10:00 AM - 11:30 AM", endtime := "" }).endtime ≠ "11:30 AM"
    ∧ (normTimes { starttime := "10:00 AM - 11:30 AM", endtime := "" }).starttime = "10:00 AM" :=
  ⟨rfl, by decide, rfl⟩

/-- C7: `find_startend_time` returns the unique clock-pattern match paired
with `''`, the first two of exactly two matches, and `('', '')` for zero or
three-plus matches; with the two concrete examples of the spec. -/
theorem find_time_range_cases :
    (∀ s : String,
      find_startend_time s =
        match findClockTimes s with
        | [t] => (t, "")
        | [t1, t2] => (t1, t2)
        | _ => ("", ""))
    ∧ find_startend_time "Talk from 2:00 PM to 3:00 PM" = ("2:00 PM", "3:00 PM")
    ∧ find_startend_time "no times here" = ("", "") := by
  refine ⟨fun s => ?_, rfl, rfl⟩
  rcases hts : findClockTimes s with _ | ⟨a, _ | ⟨b, _ | ⟨c, l⟩⟩⟩ <;>
    simp [find_startend_time, hts]

/-! ## Corpus store lemmas -/

theorem toList_append (a b : String) : (a ++ b).toList = a.toList ++ b.toList := by
  cases a; cases b; rfl

theorem save_json_starts_bracket (ls : List Event) :
    ∃ u, (save_json ls).toList = '[' :: '\n' :: u := by
  refine ⟨("  " ++ String.intercalate ",\n  " (ls.map dumpsEvent) ++ "\n]").toList, ?_⟩
  show ((("[\n  " ++ String.intercalate ",\n  " (ls.map dumpsEvent)) ++ "\n]")).toList = _
  rw [toList_append, toList_append, toList_append, toList_append]
  rfl

theorem linesAux_bracket (fuel : Nat) (t : List Char) :
    linesAux (fuel + 1) ('[' :: '\n' :: t) = "[" :: linesAux fuel t := by
  simp [linesAux, List.takeWhile, List.dropWhile]

/-- C8 (corrected): `read_json` on a missing path is the empty corpus, but
the save/load pair does **not** round-trip: `save_json` writes one JSON array
spread over several lines while `read_json` parses the file line by line, so
on any saved corpus it raises a JSON decode error at the very first line
(`"["` is not a complete JSON value).  (The `__main__` pipeline itself
re-reads the corpus with a whole-file `json.loads` instead, lines 2270 and
2284.) -/
theorem read_json_empty_and_save_mismatch :
    read_json none = Except.ok []
    ∧ ∀ corpus : List Event, read_json (some (save_json corpus)) = Except.error () := by
  refine ⟨rfl, fun corpus => ?_⟩
  obtain ⟨u, hu⟩ := save_json_starts_bracket corpus
  have hlines : ∃ rest, linesOf (save_json corpus) = "[" :: rest := by
    refine ⟨linesAux (u.length + 2) u, ?_⟩
    unfold linesOf
    rw [hu]
    have hlen : ('[' :: '\n' :: u).length + 1 = (u.length + 2) + 1 := by simp
    rw [hlen, linesAux_bracket]
  obtain ⟨rest, hrest⟩ := hlines
  show parseLines (linesOf (save_json corpus)) = Except.error ()
  rw [hrest]
  simp [parseLines, show jsonLoads "[" = none from rfl]


/-- C8 counterexample: on a concrete one-event corpus, loading right after
saving does not return the saved records — `read_json` raises on the first
line of the file `save_json` wrote. -/
theorem read_json_after_save_fails :
    read_json (some (save_json [{ title := "Grand Rounds" }])) = Except.error () := rfl

/-- C9: whenever the vector stage succeeds on a corpus of `N` events with
`K`-component SVD output, the persisted store has exactly `N` entries, in
corpus order and keyed by each event's `event_index`, and every
`event_vector` has length exactly `K`. -/
theorem vector_shape (preprocessF : String → String)
    (tfidfF : List String → Option (List (List Float)))
    (svdF : List (List Float) → List (List Float)) (K : Nat)
    (hsvd : ∀ x, ∀ row ∈ svdF x, row.length = K)
    (corpus : List Event) (out : List (Option Nat × List Float))
    (hout : vectorStage preprocessF tfidfF svdF corpus = some out) :
    out.length = corpus.length
    ∧ out.map Prod.fst = corpus.map (fun e => e.event_index)
    ∧ ∀ p ∈ out, p.2.length = K := by
  simp only [vectorStage] at hout
  rcases htf : tfidfF ((corpus.map eventText).map preprocessF) with _ | x
  · rw [htf] at hout; dsimp only at hout; cases hout
  · rw [htf] at hout
    dsimp only at hout
    by_cases hlen : (svdF x).length = corpus.length
    · rw [if_pos hlen] at hout
      have hout' : ((corpus.zip (svdF x)).map (fun p => (p.1.event_index, p.2))) = out :=
        Option.some.inj hout
      subst hout'
      refine ⟨?_, ?_, ?_⟩
      · rw [List.length_map, List.length_zip, hlen, Nat.min_self]
      · have h1 : ((corpus.zip (svdF x)).map (fun p => (p.1.event_index, p.2))).map Prod.fst
            = ((corpus.zip (svdF x)).map Prod.fst).map (fun e => e.event_index) := by
          rw [List.map_map, List.map_map]; rfl
        rw [h1, List.map_fst_zip corpus (svdF x) (le_of_eq hlen.symm)]
      · intro p hp
        obtain ⟨q, hq, hpq⟩ := List.mem_map.mp hp
        have hq2 : q.2 ∈ svdF x := (List.of_mem_zip hq).2
        rw [← hpq]
        exact hsvd x q.2 hq2
    · rw [if_neg hlen] at hout
      simp at hout

theorem vector_shape_witness :
    ∃ out : List (Option Nat × List Float),
      vectorStage id tfidfModel (svdModel 30) [({} : Event)] = some out
      ∧ out.length = 1 ∧ out.map Prod.fst = [none]
      ∧ ∀ p ∈ out, p.2.length = 30 := by
  refine ⟨[(none, List.replicate 30 (0 : Float))], rfl, ?_⟩
  have h := vector_shape id tfidfModel (svdModel 30) 30
    (by
      intro x row hrow
      simp only [svdModel, List.mem_map] at hrow
      obtain ⟨_, _, hr⟩ := hrow
      rw [← hr]
      exact List.length_replicate 30 _)
    [({} : Event)] [(none, List.replicate 30 (0 : Float))] rfl
  exact ⟨h.1, h.2.1, h.2.2⟩

/-! ## Split-on-dash lemmas -/

theorem splitChar_ne_nil (sep : Char) : ∀ cs : List Char, splitChar sep cs ≠ [] := by
  intro cs
  induction cs with
  | nil => simp [splitChar]
  | cons c rest ih =>
    by_cases hc : c = sep
    · simp [splitChar, hc]
    · simp only [splitChar, if_neg hc]
      rcases h : splitChar sep rest with _ | ⟨x, xs⟩
      · simp
      · simp

theorem splitChar_head (sep : Char) :
    ∀ cs : List Char, ∃ t, splitChar sep cs = (cs.takeWhile (fun c => c ≠ sep)) :: t := by
  intro cs
  induction cs with
  | nil => exact ⟨[], rfl⟩
  | cons c rest ih =>
    by_cases hc : c = sep
    · subst hc
      refine ⟨splitChar c rest, ?_⟩
      simp [splitChar, List.takeWhile_cons]
    · obtain ⟨t, ht⟩ := ih
      refine ⟨t, ?_⟩
      simp only [splitChar, if_neg hc, ht, List.takeWhile_cons]
      simp [hc]

theorem splitChar_length (sep : Char) :
    ∀ cs : List Char, (splitChar sep cs).length = cs.count sep + 1 := by
  intro cs
  induction cs with
  | nil => simp [splitChar]
  | cons c rest ih =>
    by_cases hc : c = sep
    · subst hc
      simp [splitChar, ih, List.count_cons]
    · obtain ⟨h, t, heq⟩ := List.exists_cons_of_ne_nil (splitChar_ne_nil sep rest)
      simp only [splitChar, if_neg hc, heq]
      rw [heq] at ih
      simp only [List.length_cons] at ih ⊢
      rw [List.count_cons]
      simp [hc, ih]

theorem takeWhile_append_all {p : Char → Bool} :
    ∀ (l m : List Char), l.all p → (l ++ m).takeWhile p = l ++ m.takeWhile p := by
  intro l
  induction l with
  | nil => intro m _; rfl
  | cons a l ih =>
    intro m h
    rw [List.all_cons] at h
    obtain ⟨ha, hl⟩ := Bool.and_eq_true_iff.mp h
    simp [List.takeWhile_cons, ha, ih m hl]

theorem takeWhile_all {p : Char → Bool} :
    ∀ l : List Char, l.all p → l.takeWhile p = l := by
  intro l
  induction l with
  | nil => intro _; rfl
  | cons a l ih =>
    intro h
    rw [List.all_cons] at h
    obtain ⟨ha, hl⟩ := Bool.and_eq_true_iff.mp h
    simp [List.takeWhile_cons, ha, ih hl]

theorem takeWhile_append_not_all {p : Char → Bool} :
    ∀ (l m : List Char), (∃ a ∈ l, p a = false) → (l ++ m).takeWhile p = l.takeWhile p := by
  intro l
  induction l with
  | nil =>
    intro m h
    obtain ⟨a, ha, _⟩ := h
    exact absurd ha (List.not_mem_nil a)
  | cons b l ih =>
    intro m h
    by_cases hb : p b
    · simp only [List.cons_append, List.takeWhile_cons, hb]
      obtain ⟨a, ha, hpa⟩ := h
      rcases List.mem_cons.mp ha with rfl | ha'
      · rw [hb] at hpa; cases hpa
      · rw [ih m ⟨a, ha', hpa⟩]
    · simp only [List.cons_append, List.takeWhile_cons]
      rw [Bool.not_eq_true] at hb
      simp [hb]

theorem getLastD_indep {α : Type} :
    ∀ (l : List α) (d d' : α), l ≠ [] → l.getLastD d = l.getLastD d' := by
  intro l d d' h
  cases l with
  | nil => exact absurd rfl h
  | cons a l => rfl

theorem splitChar_getLastD (sep : Char) :
    ∀ cs : List Char,
      (splitChar sep cs).getLastD []
        = ((cs.reverse.takeWhile (fun c => c ≠ sep)).reverse) := by
  intro cs
  induction cs with
  | nil => rfl
  | cons c rest ih =>
    by_cases hc : c = sep
    · rw [hc]
      have hl : splitChar sep (sep :: rest) = [] :: splitChar sep rest := by
        simp [splitChar]
      rw [hl]
      have h2 : ([] :: splitChar sep rest).getLastD [] = (splitChar sep rest).getLastD [] := by
        rw [List.getLastD_cons]
      rw [h2, ih]
      have hrev : (sep :: rest).reverse = rest.reverse ++ [sep] := by simp
      rw [hrev]
      by_cases hall : rest.reverse.all (fun x => decide (x ≠ sep))
      · rw [takeWhile_append_all _ _ hall, takeWhile_all _ hall]
        simp
      · have hex : ∃ a ∈ rest.reverse, (fun x => decide (x ≠ sep)) a = false := by
          rw [List.all_eq_true] at hall
          push_neg at hall
          obtain ⟨a, ha, hpa⟩ := hall
          exact ⟨a, ha, by simpa using hpa⟩
        rw [takeWhile_append_not_all _ _ hex]
    · obtain ⟨h, t, heq⟩ := List.exists_cons_of_ne_nil (splitChar_ne_nil sep rest)
      have hl : splitChar sep (c :: rest) = (c :: h) :: t := by
        simp only [splitChar, if_neg hc, heq]
      rw [hl, List.getLastD_cons]
      have hrev : (c :: rest).reverse = rest.reverse ++ [c] := by simp
      rw [hrev]
      cases ht : t with
      | nil =>
        subst ht
        have hcount : rest.count sep = 0 := by
          have hlen := splitChar_length sep rest
          rw [heq] at hlen
          simp at hlen
          omega
        have hnomem : sep ∉ rest := by
          intro hmem
          have := List.count_pos_iff.mpr hmem
          omega
        have hallrest : rest.all (fun x => decide (x ≠ sep)) = true := by
          rw [List.all_eq_true]
          intro x hx
          simp only [decide_eq_true_eq]
          intro hxs
          exact hnomem (hxs ▸ hx)
        have hallrev : rest.reverse.all (fun x => decide (x ≠ sep)) = true := by
          rw [List.all_reverse]
          exact hallrest
        have hheq : h = rest := by
          obtain ⟨t2, ht2⟩ := splitChar_head sep rest
          rw [heq] at ht2
          have : h = rest.takeWhile (fun c => c ≠ sep) := (List.cons.injEq _ _ _ _ ▸ ht2).1
          rw [this, takeWhile_all _ hallrest]
        have hpc : ([c].takeWhile (fun x => decide (x ≠ sep))) = [c] := by
          simp [List.takeWhile_cons, hc]
        rw [takeWhile_append_all _ _ hallrev, hpc, hheq]
        simp
      | cons t1 ts =>
        have e2 : (h :: t1 :: ts).getLastD [] = (t1 :: ts).getLastD h := by
          rw [List.getLastD_cons]
        have e3 : (splitChar sep rest).getLastD [] = (t1 :: ts).getLastD h := by
          rw [heq, ht]; exact e2
        have hlhs : (t1 :: ts).getLastD (c :: h) = (splitChar sep rest).getLastD [] :=
          (getLastD_indep (t1 :: ts) (c :: h) h (by simp)).trans e3.symm
        rw [hlhs, ih]
        have hmem : sep ∈ rest := by
          have hlen := splitChar_length sep rest
          rw [heq, ht] at hlen
          simp only [List.length_cons] at hlen
          rw [← List.count_pos_iff]
          omega
        have hex : ∃ a ∈ rest.reverse, (fun x => decide (x ≠ sep)) a = false := by
          exact ⟨sep, List.mem_reverse.mpr hmem, by simp⟩
        rw [takeWhile_append_not_all _ _ hex]

/-- C10: when `starttime` holds more than one dash, `clean_starttime` is the
trimmed text before the **first** dash (`split('-')[0].strip()`) and the
range branch of `clean_endtime` is the trimmed text after the **last** dash
(`split('-')[-1].strip()`); all middle segments are discarded. -/
theorem multi_dash_first_last (r : Event) (h2 : 2 ≤ r.starttime.toList.count '-') :
    clean_starttime r
      = String.mk (stripChars (r.starttime.toList.takeWhile (fun c => c ≠ '-')))
    ∧ clean_endtime r
      = String.mk (stripChars ((r.starttime.toList.reverse.takeWhile (fun c => c ≠ '-')).reverse)) := by
  have hmem : '-' ∈ r.starttime.toList := by
    rw [← List.count_pos_iff]
    omega
  constructor
  · rw [clean_starttime, if_pos hmem]
    obtain ⟨t, htt⟩ := splitChar_head '-' r.starttime.toList
    rw [htt]
    rfl
  · rw [clean_endtime, if_pos hmem, splitChar_getLastD]

theorem multi_dash_first_last_witness :
    clean_starttime ({ starttime := "1:00 PM - 2:00 PM - 3:00 PM" } : Event) = "1:00 PM"
    ∧ clean_endtime ({ starttime := "1:00 PM - 2:00 PM - 3:00 PM" } : Event) = "3:00 PM" :=
  ⟨((multi_dash_first_last { starttime := "1:00 PM - 2:00 PM - 3:00 PM" } (by decide)).1).trans
      (by decide),
   ((multi_dash_first_last { starttime := "1:00 PM - 2:00 PM - 3:00 PM" } (by decide)).2).trans
      (by decide)⟩
